import Mathlib

/-!
Verification development for the business-chain financial standardization core:
a shallow embedding of `raw_data_etl.py` (the wide-format date-header transposer)
and `normalized_raw_data.py` (the mapping resolver and record normalizer),
with theorems settling the specification claims.

Numeric cell values are modelled as exact rationals (`ℚ`); Python floats carry
IEEE rounding that none of the claims depend on.  Exceptions are modelled by
`Option`: a function returning `none` models a Python code path that raises.
-/

namespace Shared

/-- Decides whether `pat` occurs at the start of `hay` (list form). -/
def listStartsWith : List Char → List Char → Bool
  | _, [] => true
  | [], _ :: _ => false
  | a :: as, b :: bs => if a = b then listStartsWith as bs else false

/-- Decides whether `pat` occurs contiguously anywhere inside `hay` (list form). -/
def listHasInfix (hay pat : List Char) : Bool :=
  match hay with
  | [] => pat.isEmpty
  | _ :: t => listStartsWith hay pat || listHasInfix t pat

/-- Python's `pat in hay` substring test on strings. -/
def containsSub (hay pat : String) : Bool :=
  listHasInfix hay.data pat.data

/-- Split a character list at every separator character (Python
`str.split(sep)` keeps empty pieces between adjacent separators; callers that
model Python's bare `str.split()` filter the empty pieces away). -/
def splitChars (p : Char → Bool) : List Char → List (List Char)
  | [] => [[]]
  | c :: cs =>
    let r := splitChars p cs
    if p c then [] :: r
    else
      match r with
      | [] => [[c]]
      | h :: t => (c :: h) :: t

/-- Python `str.split(sep)` / `str.split()` piece list (see `splitChars`). -/
def strSplit (s : String) (p : Char → Bool) : List String :=
  (splitChars p s.data).map String.mk

/-- Python `str.strip()` on a character list. -/
def trimChars (cs : List Char) : List Char :=
  ((cs.dropWhile Char.isWhitespace).reverse.dropWhile Char.isWhitespace).reverse

/-- Python `str.strip()`. -/
def strTrim (s : String) : String :=
  String.mk (trimChars s.data)

/-- Python `str.lower()` (ASCII range; the data never leaves it). -/
def strLower (s : String) : String :=
  String.mk (s.data.map Char.toLower)

/-- Code-point lexicographic `≤` on character lists — how Python compares
strings (and Lean, definitionally on the same code points). -/
def charListLe : List Char → List Char → Bool
  | [], _ => true
  | _ :: _, [] => false
  | a :: as, b :: bs =>
    if a.toNat < b.toNat then true
    else if a.toNat = b.toNat then charListLe as bs
    else false

/-- Code-point lexicographic `≤` on strings, as a Boolean. -/
def strLeB (a b : String) : Bool :=
  charListLe a.data b.data

/-- Code-point lexicographic `≤` on strings, as a relation: Python's string
order, which `sorted` uses. -/
def lexLe (a b : String) : Prop :=
  strLeB a b = true

instance lexLe.decRel : DecidableRel lexLe :=
  fun a b => inferInstanceAs (Decidable (strLeB a b = true))

theorem charListLe_total (as bs : List Char) :
    charListLe as bs = true ∨ charListLe bs as = true := by
  induction as generalizing bs with
  | nil => exact Or.inl rfl
  | cons a as ih =>
    cases bs with
    | nil => exact Or.inr rfl
    | cons b bs =>
      rcases Nat.lt_trichotomy a.toNat b.toNat with h | h | h
      · exact Or.inl (by simp [charListLe, h])
      · rcases ih bs with h1 | h1
        · exact Or.inl (by simp [charListLe, h, h1])
        · exact Or.inr (by simp [charListLe, h.symm, h1])
      · exact Or.inr (by simp [charListLe, h])

theorem charListLe_trans (as bs cs : List Char) (h1 : charListLe as bs = true)
    (h2 : charListLe bs cs = true) : charListLe as cs = true := by
  induction as generalizing bs cs with
  | nil => rfl
  | cons a as ih =>
    cases bs with
    | nil => simp [charListLe] at h1
    | cons b bs =>
      cases cs with
      | nil => simp [charListLe] at h2
      | cons c cs =>
        simp only [charListLe] at h1 h2 ⊢
        rcases Nat.lt_trichotomy a.toNat b.toNat with hab | hab | hab
        · rcases Nat.lt_trichotomy b.toNat c.toNat with hbc | hbc | hbc
          · rw [if_pos (Nat.lt_trans hab hbc)]
          · rw [if_pos (hbc ▸ hab)]
          · rw [if_neg (Nat.lt_asymm hbc), if_neg (Nat.ne_of_gt hbc)] at h2
            cases h2
        · rcases Nat.lt_trichotomy b.toNat c.toNat with hbc | hbc | hbc
          · rw [if_pos (hab ▸ hbc)]
          · rw [if_neg (by rw [hab, hbc]; exact Nat.lt_irrefl _),
              if_pos (hab.trans hbc)]
            rw [if_neg (hab ▸ Nat.lt_irrefl _), if_pos hab] at h1
            rw [if_neg (hbc ▸ Nat.lt_irrefl _), if_pos hbc] at h2
            exact ih bs cs h1 h2
          · rw [if_neg (Nat.lt_asymm hbc), if_neg (Nat.ne_of_gt hbc)] at h2
            cases h2
        · rw [if_neg (Nat.lt_asymm hab), if_neg (Nat.ne_of_gt hab)] at h1
          cases h1

instance lexLe.isTotal : IsTotal String lexLe :=
  ⟨fun a b => charListLe_total a.data b.data⟩

instance lexLe.isTrans : IsTrans String lexLe :=
  ⟨fun a b c => charListLe_trans a.data b.data c.data⟩

/-- Python dict assignment `m[k] = v`: replace the value if the key is present
(keeping its position), otherwise append the new pair at the end. -/
def updIn {β : Type} : List (String × β) → String → β → List (String × β)
  | [], k, v => [(k, v)]
  | p :: t, k, v => if p.1 = k then (k, v) :: t else p :: updIn t k v

theorem lookup_updIn_self {β : Type} (m : List (String × β)) (k : String) (v : β) :
    (updIn m k v).lookup k = some v := by
  induction m with
  | nil => simp [updIn, List.lookup]
  | cons p t ih =>
    by_cases h : p.1 = k
    · simp [updIn, h, List.lookup]
    · have hb : (k == p.1) = false := beq_eq_false_iff_ne.mpr (fun e => h e.symm)
      simp [updIn, if_neg h, List.lookup, hb, ih]

theorem lookup_updIn_other {β : Type} (m : List (String × β)) (k : String) (v : β)
    (k' : String) (h : k' ≠ k) : (updIn m k v).lookup k' = m.lookup k' := by
  have hb : (k' == k) = false := beq_eq_false_iff_ne.mpr h
  induction m with
  | nil => simp [updIn, List.lookup, hb]
  | cons p t ih =>
    by_cases hp : p.1 = k
    · subst hp
      simp [updIn, List.lookup, hb]
    · simp only [updIn, if_neg hp, List.lookup]
      cases hpk : (k' == p.1) <;> simp [hpk, ih]

/-- Keys present in an association list. -/
def keysOf {β : Type} (m : List (String × β)) : List String := m.map Prod.fst

theorem lookup_isSome_of_mem {β : Type} {m : List (String × β)} {k : String} {v : β}
    (h : (k, v) ∈ m) : (m.lookup k).isSome := by
  induction m with
  | nil => cases h
  | cons p t ih =>
    rcases List.mem_cons.mp h with h1 | h2
    · subst h1; simp [List.lookup]
    · simp only [List.lookup]
      cases hb : (k == p.1) <;> simp [ih h2]

theorem mem_lookup_of_nodup {β : Type} {m : List (String × β)} {k : String} {v : β}
    (hnd : (keysOf m).Nodup) (h : (k, v) ∈ m) : m.lookup k = some v := by
  induction m with
  | nil => cases h
  | cons p t ih =>
    simp only [keysOf, List.map_cons, List.nodup_cons] at hnd
    rcases List.mem_cons.mp h with h1 | h2
    · subst h1; simp [List.lookup]
    · have hne : (k == p.1) = false := by
        refine beq_eq_false_iff_ne.mpr (fun e => ?_)
        exact hnd.1 (e ▸ List.mem_map_of_mem Prod.fst h2)
      simp [List.lookup, hne, ih hnd.2 h2]

theorem lookup_eq_none_of_not_mem_keys {β : Type} {m : List (String × β)} {k : String}
    (h : k ∉ keysOf m) : m.lookup k = none := by
  induction m with
  | nil => rfl
  | cons p t ih =>
    simp only [keysOf, List.map_cons, List.mem_cons, not_or] at h
    have hb : (k == p.1) = false := beq_eq_false_iff_ne.mpr h.1
    simp [List.lookup, hb, ih h.2]

theorem mem_of_lookup_eq_some {β : Type} {m : List (String × β)} {k : String} {v : β}
    (h : m.lookup k = some v) : (k, v) ∈ m := by
  rcases List.lookup_eq_some_iff.mp h with ⟨l₁, l₂, he, _⟩
  subst he
  simp

theorem not_mem_keys_of_lookup_eq_none {β : Type} {m : List (String × β)} {k : String}
    (h : m.lookup k = none) : k ∉ keysOf m := by
  intro hk
  rcases List.mem_map.mp hk with ⟨p, hp, he⟩
  have := List.lookup_eq_none_iff.mp h p hp
  rw [← he] at this
  simp at this

theorem foldl_updIn_lookup_not_mem {β : Type} (fixes : List (String × β))
    (m : List (String × β)) (k : String) (hk : k ∉ keysOf fixes) :
    (fixes.foldl (fun m p => updIn m p.1 p.2) m).lookup k = m.lookup k := by
  induction fixes generalizing m with
  | nil => rfl
  | cons q t ih =>
    simp only [keysOf, List.map_cons, List.mem_cons, not_or] at hk
    rw [List.foldl_cons, ih _ (by simpa [keysOf] using hk.2), lookup_updIn_other _ _ _ _ hk.1]

theorem foldl_updIn_lookup_mem {β : Type} (fixes : List (String × β))
    (m : List (String × β)) (p : String × β) (hp : p ∈ fixes)
    (hnd : (keysOf fixes).Nodup) :
    (fixes.foldl (fun m p => updIn m p.1 p.2) m).lookup p.1 = some p.2 := by
  induction fixes generalizing m with
  | nil => cases hp
  | cons q t ih =>
    simp only [keysOf, List.map_cons, List.nodup_cons] at hnd
    rcases List.mem_cons.mp hp with h1 | h2
    · subst h1
      rw [List.foldl_cons,
        foldl_updIn_lookup_not_mem t _ p.1 (by simpa [keysOf] using hnd.1),
        lookup_updIn_self]
    · exact List.foldl_cons _ _ ▸ ih _ h2 hnd.2

end Shared

namespace RawDataEtl

open Shared

/-- A scalar cell of the wide-format source sheet, as pandas sees it.
`empty` models a missing value / `NaN` (the `pd.isna` ⋯ `pd.notna` tests);
`num` models `int` and `float` values at exact precision; `dt` models a
datetime object (an Excel date header); `str` a text cell. -/
inductive SCell where
  | empty : SCell
  | str : String → SCell
  | num : ℚ → SCell
  | dt : Nat → Nat → Nat → SCell
deriving DecidableEq, Repr

/-- Characters kept by `re.sub(r'[^\d.-]', '', value)`: digits, `.` and `-`.
The Python regex class `\d` also admits non-ASCII Unicode digits; the model
covers the ASCII digits, which is what `float()` and the data exercise. -/
def keptChar (c : Char) : Bool :=
  c.isDigit || c = '.' || c = '-'

/-- Model of `re.sub(r'[^\d.-]', '', s)`. -/
def stripNonNumericChars (s : String) : List Char :=
  s.data.filter keptChar

/-- Numeric value of a digit list (most significant first; caller checks digits). -/
def decDigitsVal (cs : List Char) : ℚ :=
  cs.foldl (fun a c => a * 10 + (c.toNat - 48 : Nat)) 0

/-- Model of Python `float(s)` restricted to the alphabet `float` receives here
(digits, `.`, `-`): an optional single leading minus sign, then either
`digits`, `digits.digits?`, or `.digits` — anything else raises `ValueError`,
modelled as `none`.  (Exponents, `inf`/`nan` spellings and underscores cannot
reach this call because the cleaning regex has removed every letter and `_`.) -/
def parseUnsignedFloat (cs : List Char) : Option ℚ :=
  let intPart := cs.takeWhile Char.isDigit
  let rest := cs.dropWhile Char.isDigit
  match rest with
  | [] => if intPart.isEmpty then none else some (decDigitsVal intPart)
  | '.' :: frac =>
    if frac.all Char.isDigit && (!intPart.isEmpty || !frac.isEmpty) then
      some (decDigitsVal intPart + decDigitsVal frac / (10 : ℚ) ^ frac.length)
    else none
  | _ => none

/-- Model of `float(s)` on a cleaned string (see `parseUnsignedFloat`). -/
def pyFloat (cs : List Char) : Option ℚ :=
  match cs with
  | '-' :: rest => (parseUnsignedFloat rest).map Neg.neg
  | _ => parseUnsignedFloat cs

/-- The per-cell value coercion of `create_raw_data_records` (lines 174-185 of
`raw_data_etl.py`): `NaN` → `0`; a string is cleaned by the regex and fed to
`float`, with the empty remainder or a `ValueError` degrading to `0`; ints and
floats pass through; any other type (e.g. a datetime) becomes `0`. -/
def cleanValue : SCell → ℚ
  | .empty => 0
  | .str s =>
    let cleaned := stripNonNumericChars s
    if cleaned.isEmpty then 0 else (pyFloat cleaned).getD 0
  | .num q => q
  | .dt _ _ _ => 0

/-- The coercion as the claim states it: NaN and non-numeric types become 0,
strings are stripped of every character except digits, `.` and `-` before
parsing, and any string that still fails to parse (including the empty
remainder) becomes 0. -/
def cleanValueSpec : SCell → ℚ
  | .empty => 0
  | .str s => (pyFloat (stripNonNumericChars s)).getD 0
  | .num q => q
  | .dt _ _ _ => 0

/-- The fixed `dreams_locations` table of `DreamsRawDataCreator.__init__`:
location key → emitted location name, in Python dict insertion order. -/
def dreamsLocations : List (String × String) :=
  [("Okotoks", "Okotoks"), ("Barlow NE", "Barlow NE"), ("Eastpoint SE", "Eastpoint SE"),
   ("Corp", "Corporate"), ("General", "General")]

/-- The four per-location revenue labels of `is_location_specific_field`. -/
def locationSpecificFields : List String :=
  ["Okotoks Revenue", "Barlow NE Revenue", "Eastpoint SE Revenue", "Corp Revenue"]

/-- `is_location_specific_field`: strip the label; only an exact member of the
four per-location revenue labels is location-specific, and the elif chain of
substring tests then maps it to its location key.  Every other field returns
`(false, none)`. -/
def isLocationSpecificField (fieldName : String) : Bool × Option String :=
  let fc := strTrim fieldName
  if fc ∈ locationSpecificFields then
    if containsSub fc "Okotoks" then (true, some "Okotoks")
    else if containsSub fc "Barlow NE" then (true, some "Barlow NE")
    else if containsSub fc "Eastpoint SE" then (true, some "Eastpoint SE")
    else if containsSub fc "Corp" then (true, some "Corp")
    else (false, none)
  else (false, none)

/-- `should_include_field_for_location`: a location-specific field is included
only for its own location; every other field only for the "General" bucket. -/
def shouldIncludeFieldForLocation (fieldName currentKey : String) : Bool :=
  match isLocationSpecificField fieldName with
  | (true, floc) => floc == some currentKey
  | (false, _) => currentKey == "General"

/-- The unique location key whose row receives a category's value. -/
def targetKey (fieldName : String) : String :=
  match isLocationSpecificField fieldName with
  | (true, some l) => l
  | _ => "General"

/-- A calendar date (pandas timestamps in this pipeline are all at midnight). -/
structure PDate where
  y : Nat
  m : Nat
  d : Nat
deriving DecidableEq, Repr

/-- Strict lexicographic date comparison, modelling `datetime` `<`. -/
def dateLtB (a b : PDate) : Bool :=
  decide (a.y < b.y) ||
    (decide (a.y = b.y) &&
      (decide (a.m < b.m) || (decide (a.m = b.m) && decide (a.d < b.d))))

/-- The fixed forecast cutoff `datetime(2025, 6, 30)`. -/
def cutoffDate : PDate := ⟨2025, 6, 30⟩

/-- `"FORECAST" if parsed_date > datetime(2025, 6, 30) else "ACTUAL"`. -/
def forecastFlag (d : PDate) : String :=
  if dateLtB cutoffDate d then "FORECAST" else "ACTUAL"

/-- `strftime("%B")`: full English month name (C locale). -/
def monthName : Nat → String
  | 1 => "January" | 2 => "February" | 3 => "March" | 4 => "April"
  | 5 => "May" | 6 => "June" | 7 => "July" | 8 => "August"
  | 9 => "September" | 10 => "October" | 11 => "November" | 12 => "December"
  | _ => ""

/-- `f"Q{(month - 1) // 3 + 1}"`. -/
def quarterStr (d : PDate) : String :=
  "Q" ++ toString ((d.m - 1) / 3 + 1)

/-- Zero-pad a number below 100 to two digits, as `strftime` does. -/
def pad2 (n : Nat) : String :=
  if n < 10 then "0" ++ toString n else toString n

/-- `strftime("%Y-%m-%d")` (years in scope are four-digit). -/
def isoDateStr (d : PDate) : String :=
  toString d.y ++ "-" ++ pad2 d.m ++ "-" ++ pad2 d.d

/-- Lowercased three-letter month abbreviations with month numbers. -/
def monthAbbrs : List (String × Nat) :=
  [("jan", 1), ("feb", 2), ("mar", 3), ("apr", 4), ("may", 5), ("jun", 6),
   ("jul", 7), ("aug", 8), ("sep", 9), ("oct", 10), ("nov", 11), ("dec", 12)]

/-- Lowercased full month names with month numbers. -/
def monthFulls : List (String × Nat) :=
  [("january", 1), ("february", 2), ("march", 3), ("april", 4), ("may", 5),
   ("june", 6), ("july", 7), ("august", 8), ("september", 9), ("october", 10),
   ("november", 11), ("december", 12)]

/-- `some` of the numeric value when `cs` is a nonempty all-digit list of
length at most `maxLen`, else `none`. -/
def digitsUpTo (maxLen : Nat) (cs : List Char) : Option Nat :=
  if !cs.isEmpty && cs.length ≤ maxLen && cs.all Char.isDigit then
    some (cs.foldl (fun a c => a * 10 + (c.toNat - 48)) 0)
  else none

/-- Exactly-n-digit numeral, as the `strptime` regexes for `%y`/`%Y` require. -/
def digitsExactly (n : Nat) (cs : List Char) : Option Nat :=
  if cs.length = n then digitsUpTo n cs else none

/-- `strptime`-style `%m`: one or two digits with value 1..12. -/
def parseMonthNum (s : String) : Option Nat :=
  match digitsUpTo 2 s.data with
  | some v => if 1 ≤ v ∧ v ≤ 12 then some v else none
  | none => none

/-- `strptime`-style `%d`: one or two digits with value 1..31. -/
def parseDayNum (s : String) : Option Nat :=
  match digitsUpTo 2 s.data with
  | some v => if 1 ≤ v ∧ v ≤ 31 then some v else none
  | none => none

/-- `strptime`-style `%y`: exactly two digits; 00-68 map to 2000-2068 and
69-99 to 1969-1999, as in CPython. -/
def parseYearTwo (s : String) : Option Nat :=
  match digitsExactly 2 s.data with
  | some v => some (if v ≤ 68 then 2000 + v else 1900 + v)
  | none => none

/-- `strptime`-style `%Y`: exactly four digits. -/
def parseYearFour (s : String) : Option Nat :=
  digitsExactly 4 s.data

/-- Whether `y`-`m`-`d` is a real calendar date (`datetime` would accept it). -/
def validYMD (y m d : Nat) : Bool :=
  let leap := y % 4 = 0 ∧ (y % 100 ≠ 0 ∨ y % 400 = 0)
  let dim : Nat :=
    if m = 2 then (if leap then 29 else 28)
    else if m = 4 ∨ m = 6 ∨ m = 9 ∨ m = 11 then 30
    else 31
  decide (1 ≤ m) && decide (m ≤ 12) && decide (1 ≤ d) && decide (d ≤ dim)

/-- Case-insensitive month-name token: abbreviation or full name (`%b` and the
month-string recognition of `dateutil` both match case-insensitively). -/
def monthFromToken (s : String) : Option Nat :=
  match monthAbbrs.lookup (strLower s) with
  | some m => some m
  | none => monthFulls.lookup (strLower s)

/-- `strptime(s, "%b-%y")`: abbreviated month, `-`, two-digit year; day 1. -/
def parseFmtAbbrDashY2 (s : String) : Option PDate :=
  match strSplit s (fun c => c = '-') with
  | [a, b] =>
    match monthAbbrs.lookup (strLower a), parseYearTwo b with
    | some m, some y => some ⟨y, m, 1⟩
    | _, _ => none
  | _ => none

/-- `strptime(s, "%B %Y")`: full month name, whitespace, four-digit year
(a literal space in a `strptime` format matches any whitespace run). -/
def parseFmtFullSpaceY4 (s : String) : Option PDate :=
  match (strSplit s Char.isWhitespace).filter (fun t => t ≠ "") with
  | [a, b] =>
    match monthFulls.lookup (strLower a), parseYearFour b with
    | some m, some y => some ⟨y, m, 1⟩
    | _, _ => none
  | _ => none

/-- `strptime(s, "%m/%Y")`. -/
def parseFmtMSlashY4 (s : String) : Option PDate :=
  match strSplit s (fun c => c = '/') with
  | [a, b] =>
    match parseMonthNum a, parseYearFour b with
    | some m, some y => some ⟨y, m, 1⟩
    | _, _ => none
  | _ => none

/-- `strptime(s, "%Y-%m")`. -/
def parseFmtY4DashM (s : String) : Option PDate :=
  match strSplit s (fun c => c = '-') with
  | [a, b] =>
    match parseYearFour a, parseMonthNum b with
    | some y, some m => some ⟨y, m, 1⟩
    | _, _ => none
  | _ => none

/-- `strptime(s, "%Y-%m-%d")`, including the calendar-validity check
`datetime` performs (e.g. Feb 30 raises). -/
def parseFmtY4MD (s : String) : Option PDate :=
  match strSplit s (fun c => c = '-') with
  | [a, b, c] =>
    match parseYearFour a, parseMonthNum b, parseDayNum c with
    | some y, some m, some d => if validYMD y m d then some ⟨y, m, d⟩ else none
    | _, _, _ => none
  | _ => none

/-- Model of `pd.to_datetime(s, errors="coerce")` on a bare string.

Pandas first tries its abbreviated forms (pure year, `%Y-%m`, quarter
strings), then falls back to `dateutil` with default datetime year 1 — so a
month-name token with a two-digit number (e.g. `"Jan-23"`, where `23` resolves
as a day and the year stays at the default 1) lands outside the `Timestamp`
range and coerces to `NaT`, and arbitrary text coerces to `NaT`.  The model
covers the families the transposer's headers can take: four-digit-year
numeric ISO forms `YYYY`, `YYYY-MM`, `YYYY-MM-DD`, and the `dateutil`
month-name + four-digit-year pairs in either order (day defaulting to 1).
Sub-range `Timestamp` bounds (years 1677-2262) are not modelled; every date a
claim touches lies in 2022-2025. -/
def pdToDatetimeStr (s : String) : Option PDate :=
  let toks := (strSplit (strTrim s) (fun c => c = '-' || c = ' ' || c = '/')).filter (fun t => t ≠ "")
  match toks with
  | [a] =>
    match parseYearFour a with
    | some y => some ⟨y, 1, 1⟩
    | none => none
  | [a, b] =>
    match parseYearFour a, parseMonthNum b with
    | some y, some m => some ⟨y, m, 1⟩
    | _, _ =>
      match parseMonthNum a, parseYearFour b with
      | some m, some y => some ⟨y, m, 1⟩
      | _, _ =>
        match monthFromToken a, parseYearFour b with
        | some m, some y => some ⟨y, m, 1⟩
        | _, _ =>
          match parseYearFour a, monthFromToken b with
          | some y, some m => some ⟨y, m, 1⟩
          | _, _ => none
  | [a, b, c] =>
    match parseYearFour a, parseMonthNum b, parseDayNum c with
    | some y, some m, some d => if validYMD y m d then some ⟨y, m, d⟩ else none
    | _, _, _ => none
  | _ => none

/-- The explicit string-format fallback loop of `find_date_headers`, tried in
source order with the first success winning. -/
def headerFormatsParse (s : String) : Option PDate :=
  match parseFmtAbbrDashY2 s with
  | some d => some d
  | none =>
    match parseFmtFullSpaceY4 s with
    | some d => some d
    | none =>
      match parseFmtMSlashY4 s with
      | some d => some d
      | none =>
        match parseFmtY4DashM s with
        | some d => some d
        | none => parseFmtY4MD s

/-- The per-cell date parse of `find_date_headers`: skip `NaN`; a datetime
cell parses to itself; a numeric cell is interpreted by pandas as a
nanosecond offset from the epoch (modelled at day resolution for the sub-day
offsets such headers could carry — no claim exercises numeric headers); a
string tries `pd.to_datetime` first and then the five explicit formats on the
stripped string. -/
def tryParseHeaderCell : SCell → Option PDate
  | .empty => none
  | .dt y m d => some ⟨y, m, d⟩
  | .num _ => some ⟨1970, 1, 1⟩
  | .str s =>
    match pdToDatetimeStr s with
    | some d => some d
    | none => headerFormatsParse (strTrim s)

/-- `str(cell)` as used for the `original_header` field and for category
labels.  Numeric cells stringify through Lean's rational `repr` rather than
Python's float `repr`; no claim touches stringified numeric cells. -/
def cellToStr : SCell → String
  | .empty => "nan"
  | .str s => s
  | .num q => toString q
  | .dt y m d => isoDateStr ⟨y, m, d⟩

/-- One parsed header date with its derived fields, as assembled by
`find_date_headers`. -/
structure DateInfo where
  colIdx : Nat
  originalHeader : String
  parsed : PDate
  month : String
  year : Nat
  quarter : String
  date : String
  forecastType : String
deriving DecidableEq, Repr

/-- Assemble the `date_info` entry for a parsed header cell. -/
def mkDateInfo (colIdx : Nat) (orig : String) (d : PDate) : DateInfo :=
  ⟨colIdx, orig, d, monthName d.m, d.y, quarterStr d, isoDateStr d, forecastFlag d⟩

/-- The scan of header row 0 from column index 1 rightward: every non-empty
cell that parses contributes one `DateInfo` carrying its actual column index;
unparsable cells are skipped. -/
def collectDates (row : List SCell) : List DateInfo :=
  (row.drop 1).enum.filterMap fun p =>
    (tryParseHeaderCell p.2).map fun d => mkDateInfo (1 + p.1) (cellToStr p.2) d

/-- `find_date_headers` succeeds only with at least 3 parsed dates; otherwise
it reports failure (`return None, [], None`). -/
def findDateHeaders (row : List SCell) : Option (List DateInfo) :=
  let di := collectDates row
  if di.length ≥ 3 then some di else none

/-- `extract_categories_from_column_a`: every non-empty column-A cell becomes
a stripped category label paired with its literal row index. -/
def extractCategories (m : List (List SCell)) : List (String × Nat) :=
  m.enum.filterMap fun p =>
    match p.2.head?.getD .empty with
    | .empty => none
    | cell =>
      let category := strTrim (cellToStr cell)
      if category ≠ "" then some (category, p.1) else none

/-- A value of an emitted record: the standard fields hold strings and an
integer year, category fields hold coerced numbers. -/
inductive RVal where
  | vstr : String → RVal
  | vint : Int → RVal
  | vrat : ℚ → RVal
deriving DecidableEq, Repr

/-- One emitted record: a Python dict from field name to value. -/
abbrev Rec := List (String × RVal)

/-- The number of columns of the source frame (`df_raw.shape[1]`). -/
def numCols (m : List (List SCell)) : Nat :=
  (m.head?.getD []).length

/-- Source cell at (row, col), defaulting to `empty` out of range. -/
def getCell (m : List (List SCell)) (r c : Nat) : SCell :=
  (((m.get? r).getD []).get? c).getD .empty

/-- The coerced value a record receives for category row `r` at date column
`c`: `df_raw.iloc[r, c] if c < df_raw.shape[1] else 0`, then `cleanValue`. -/
def cellValueAt (m : List (List SCell)) (r c : Nat) : ℚ :=
  if c < numCols m then cleanValue (getCell m r c) else 0

/-- The six standard fields seeded into every emitted record. -/
def standardFieldsRec (locName : String) (d : DateInfo) : Rec :=
  [("Location", .vstr locName), ("Month", .vstr d.month), ("Year", .vint d.year),
   ("Quarter", .vstr d.quarter), ("Date", .vstr d.date),
   ("Forecast Type", .vstr d.forecastType)]

/-- The per-category update inside `create_raw_data_records`: skip empty or
literal `"nan"` labels; otherwise read and coerce the source cell and store it
under the category name when the field belongs to this location, else store 0. -/
def addCategoryField (m : List (List SCell)) (d : DateInfo) (locKey : String)
    (rec : Rec) (ci : String × Nat) : Rec :=
  if ci.1 ≠ "" ∧ ci.1 ≠ "nan" then
    let value := cellValueAt m ci.2 d.colIdx
    if shouldIncludeFieldForLocation ci.1 locKey then updIn rec ci.1 (.vrat value)
    else updIn rec ci.1 (.vrat 0)
  else rec

/-- The record emitted for one (date, location) pair. -/
def emitRecord (m : List (List SCell)) (d : DateInfo) (locKey locName : String)
    (cats : List (String × Nat)) : Rec :=
  cats.foldl (addCategoryField m d locKey) (standardFieldsRec locName d)

/-- `create_raw_data_records`: one record per (date, location) in the cross
product, dates outermost, locations in `dreams_locations` order. -/
def createRawDataRecords (m : List (List SCell)) (dateInfo : List DateInfo)
    (cats : List (String × Nat)) : List Rec :=
  dateInfo.flatMap fun d =>
    dreamsLocations.map fun p => emitRecord m d p.1 p.2 cats

/-- The fixed standard-column order of `save_raw_data`. -/
def transposerStd : List String :=
  ["Location", "Month", "Year", "Quarter", "Date", "Forecast Type"]

/-- `save_raw_data`'s column ordering: the standard columns first, then every
other DataFrame column sorted lexicographically (Python `sorted`).  The
reindex `raw_data_df[column_order]` raises `KeyError` when a standard column
is absent; records emitted by the transposer always carry all six. -/
def transposerColumnOrder (cols : List String) : List String :=
  transposerStd ++
    List.insertionSort lexLe (cols.filter (fun c => c ∉ transposerStd))

/-- DataFrame column discovery over a record list: field names in first-seen
order, without duplicates (`pd.DataFrame(records).columns`). -/
def recordListColumns (records : List Rec) : List String :=
  records.foldl (fun acc r => r.foldl (fun a p => if p.1 ∈ a then a else a ++ [p.1]) acc) []

/-- `create_dreams_raw_data` (the I/O around it elided): header discovery,
then category discovery, then record emission, each early-returning `None` on
an empty predecessor result.  `none` models the failed run that produces no
output records at all. -/
def createDreamsRawData (m : List (List SCell)) : Option (List Rec) :=
  match findDateHeaders (m.head?.getD []) with
  | none => none
  | some dateInfo =>
    let cats := extractCategories m
    if cats.isEmpty then none
    else
      let records := createRawDataRecords m dateInfo cats
      if records.isEmpty then none else some records

end RawDataEtl

namespace NormalizedRawData

open Shared

/-- The `normalized_columns` registry of `FixedColumnProcessor.__init__`, in
declaration order. -/
def normalizedColumns : List String :=
  ["Administrative", "Bank Charges", "Licenses & Subscriptions", "Office Supplies",
   "Professional Fees", "Telephone", "Date", "Date Header", "Forecast Type",
   "Month", "Quarter", "Year", "Insurance", "Land Lease", "Property Tax",
   "Utilities - Energy", "Utilities - Water", "Waste Disposal", "Annualized Revenue",
   "Payroll Expenses", "WCB", "Advertising & Promotion", "Client Reimbursement",
   "Sponsorship/Fundraiser", "Car Wash Supplies", "Equipment Rental", "Landscaping",
   "Repairs & Maintenance", "Shop Supplies", "Uniforms", "Annualized EBITDA",
   "Annualized Net Income", "Barlow NE Revenue", "Combined EBITDA", "Consulting Services",
   "Delivery, Shipping", "Eastpoint SE Revenue", "Okotoks Revenue", "Total Combined Net Income",
   "Total Interest Expense", "Total Revenue", "Other Expenses", "Total Expenses",
   "Software Fees", "Chemicals", "Merchant Fees", "Product", "Total Direct Expenses",
   "Location", "Rent/Lease", "Utilities", "Gross Profit", "Gross Profit %",
   "Net Operating Income", "Meals & Entertainment", "Members (End of Month)",
   "Hydrovac Cleaning", "PPE & Safety", "Security", "Tools", "Total Indirect Expenses",
   "Travel", "Wages", "Windshield Tags", "Discounts", "Revenue Share", "Ancillary Sales",
   "Gift Card Sales", "Service Revenue", "Member Wash Count", "Direct Costs",
   "% of Revenue", "Salary & Wages", "Avg Revenue per Member", "Member Wash Frequency",
   "Member Wash Volume %", "Revenue per Member Wash", "Revenue per Retail Wash",
   "Revenue per Total Wash", "Member Wash Revenue", "Retail Wash Count",
   "Retail Wash Revenue", "Total Wash Count", "Office Expenses", "Amortization",
   "Interest and bank charges", "Tounel Express", "Vehicle", "Interest Income",
   "Lease Revenue", "Lube Shop Revenue", "Office Sales", "Self Serve Sales", "Cash Sales"]

/-- The `numeric_columns` list of `run_processing` — the enumerated financial
columns forced to numeric type in the final pass. -/
def numericColumns : List String :=
  ["% of Revenue", "Administrative", "Advertising & Promotion", "Amortization",
   "Ancillary Sales", "Annualized EBITDA", "Annualized Net Income", "Annualized Revenue",
   "Avg Revenue per Member", "Bank Charges", "Barlow NE Revenue", "Car Wash Supplies",
   "Cash Sales", "Chemicals", "Client Reimbursement", "Combined EBITDA",
   "Consulting Services", "Delivery, Shipping", "Direct Costs", "Discounts",
   "Eastpoint SE Revenue", "Equipment Rental", "Gift Card Sales", "Gross Profit",
   "Gross Profit %", "Hydrovac Cleaning", "Insurance", "Interest Income",
   "Interest and bank charges", "Land Lease", "Landscaping", "Lease Revenue",
   "Licenses & Subscriptions", "Lube Shop Revenue", "Meals & Entertainment",
   "Member Wash Count", "Member Wash Frequency", "Member Wash Revenue",
   "Member Wash Volume %", "Members (End of Month)", "Merchant Fees",
   "Net Operating Income", "Office Expenses", "Office Sales", "Office Supplies",
   "Okotoks Revenue", "Other Expenses", "PPE & Safety", "Payroll Expenses",
   "Product", "Professional Fees", "Property Tax", "Rent/Lease",
   "Repairs & Maintenance", "Retail Wash Count", "Retail Wash Revenue",
   "Revenue Share", "Revenue per Member Wash", "Revenue per Retail Wash",
   "Revenue per Total Wash", "Salary & Wages", "Security", "Self Serve Sales",
   "Service Revenue", "Shop Supplies", "Sponsorship/Fundraiser", "Telephone",
   "Tools", "Total Combined Net Income", "Total Direct Expenses", "Total Expenses",
   "Total Interest Expense", "Total Revenue", "Total Wash Count", "Tounel Express",
   "Travel", "Uniforms", "Utilities", "Utilities - Energy", "Utilities - Water",
   "Vehicle", "WCB", "Wages", "Waste Disposal", "Windshield Tags"]

/-- The fixed standard-column prefix of
`create_normalized_output_with_verification`, in its literal order. -/
def standardColumns : List String :=
  ["Record ID", "File Name", "Client Name", "Location", "Month", "Year",
   "Quarter", "Date", "Forecast Type"]

/-- The hardcoded `client_fixes` manual-override table: exact client name →
override rules (each known client carries a single rule). -/
def clientFixes : List (String × List (String × String)) :=
  [("Great White Car Wash", [("Total - Revenue", "Total Revenue")]),
   ("Nolan Hill Car Wash", [("Total - Revenue", "Total Revenue")]),
   ("Dreams Car Wash", [("Total Location Revenue", "Total Revenue")]),
   ("Mint Med Hat Car Wash", [("Total - Revenue", "Total Revenue")])]

/-- One row of the reference mapping table (`master_dataframe.csv`): client
field, original column name, normalized column name; `none` models a `NaN`
entry (`pd.notna` tests). -/
structure MasterRow where
  client : Option String
  orig : Option String
  norm : Option String
deriving DecidableEq, Repr

/-- Python `clientName.split()[0]`: the first whitespace-delimited token, or
`none` when the key has no token (where the subscript raises `IndexError`). -/
def firstToken (s : String) : Option String :=
  ((strSplit s Char.isWhitespace).filter (fun t => t ≠ "")).head?

/-- Case-insensitive substring test (`str.contains(tok, case=False)` for a
pattern free of regex metacharacters). -/
def containsCI (hay pat : String) : Bool :=
  containsSub (strLower hay) (strLower pat)

/-- Regex metacharacters (by code point): `. ^ $ * + ? { } [ ] \ | ( )`.
`str.contains` treats its pattern as a regex, so a token containing one of
these either raises `re.error` or matches non-literally. -/
def regexMetachar (c : Char) : Bool :=
  c.toNat ∈ [46, 94, 36, 42, 43, 63, 123, 125, 91, 93, 92, 124, 40, 41]

/-- A pattern every character of which is a regex-literal character, so that
`str.contains(pat, case=False, regex=True)` is the case-insensitive substring
test and cannot raise. -/
def isLiteralPattern (s : String) : Bool :=
  s.data.all (fun c => !regexMetachar c)

/-- The client filter of `create_client_specific_mapping`:
`master_df['Client Name'].str.contains(tok, case=False, na=False)` —
a `NaN` client field never matches. -/
def filterClientRows (rows : List MasterRow) (tok : String) : List MasterRow :=
  rows.filter fun r =>
    match r.client with
    | some c => containsCI c tok
    | none => false

/-- The client-specific branch: one `originalName → normalizedName` pair per
filtered row with both fields present, in row order, last write winning on a
duplicate original name (Python dict assignment). -/
def clientRowsMapping (rows : List MasterRow) : List (String × String) :=
  rows.foldl
    (fun m r =>
      match r.orig, r.norm with
      | some o, some n => updIn m o n
      | _, _ => m)
    []

/-- The body of the generic fallback's inner loop: a matching row's original
name is added (mapped to `nn`) only if not yet claimed
(`if original_col not in mapping`); a `NaN` original name is skipped. -/
def addRowStep (nn : String) (m : List (String × String)) (r : MasterRow) :
    List (String × String) :=
  match r.orig with
  | some o => if (m.lookup o).isNone then m ++ [(o, nn)] else m
  | none => m

/-- The inner loop of the generic fallback for one canonical name `nn`: every
reference row whose normalized field equals `nn` contributes its original
name, only if that original name is not yet claimed. -/
def addRowsFor (m : List (String × String)) (rows : List MasterRow) (nn : String) :
    List (String × String) :=
  (rows.filter (fun r => r.norm = some nn)).foldl (addRowStep nn) m

/-- The generic fallback mapping: iterate canonical names in registry
declaration order; first claim on an original name wins. -/
def genericMapping (rows : List MasterRow) : List (String × String) :=
  normalizedColumns.foldl (fun m nn => addRowsFor m rows nn) []

/-- The reference-table stage of the resolver (before manual overrides):
client-specific rows when the filter is non-empty, else the generic fallback. -/
def preOverrideMapping (rows : List MasterRow) (tok : String) : List (String × String) :=
  let filtered := filterClientRows rows tok
  if filtered.length > 0 then clientRowsMapping filtered else genericMapping rows

/-- Apply the manual override rules for this exact client name, each
unconditionally overwriting any prior mapping for its original name. -/
def applyFixes (clientName : String) (m : List (String × String)) :
    List (String × String) :=
  match clientFixes.lookup clientName with
  | some fixes => fixes.foldl (fun m p => updIn m p.1 p.2) m
  | none => m

/-- `create_client_specific_mapping`.  `masterDf = none` models the missing
reference file (`self.master_df is None`), returning the empty mapping before
any override.  A result of `none` models an exception escaping the method: an
`IndexError` from `clientName.split()[0]` when the key has no token, or the
unmodelled regex behaviour of `str.contains` when the first token holds a
regex metacharacter. -/
def createClientSpecificMapping (masterDf : Option (List MasterRow))
    (clientName : String) : Option (List (String × String)) :=
  match masterDf with
  | none => some []
  | some rows =>
    match firstToken clientName with
    | none => none
    | some tok =>
      if isLiteralPattern tok then some (applyFixes clientName (preOverrideMapping rows tok))
      else none

/-- A cell of the combined / normalized tables: numeric, text, or null
(`NaN`/`None`). -/
inductive NCell where
  | null : NCell
  | num : ℚ → NCell
  | text : String → NCell
deriving DecidableEq, Repr

/-- Whether a cell is text. -/
def NCell.isText : NCell → Bool
  | .text _ => true
  | _ => false

/-- Whether a cell is null (`pd.isna`). -/
def NCell.isNull : NCell → Bool
  | .null => true
  | _ => false

/-- A table in column-oriented form: column name → cells by row position. -/
abbrev NTable := List (String × List NCell)

/-- Whether the table has a column with this name. -/
def hasCol (t : NTable) (c : String) : Bool :=
  t.any (fun p => p.1 = c)

/-- The cells of a column (empty when absent). -/
def getColCells (t : NTable) (c : String) : List NCell :=
  (t.lookup c).getD []

/-- Replace the cells of an existing column. -/
def setCol (t : NTable) (c : String) (cells : List NCell) : NTable :=
  t.map fun p => if p.1 = c then (c, cells) else p

/-- The cell at a row position of a column slice (null when out of range). -/
def cellAt (cells : List NCell) (i : Nat) : NCell :=
  (cells.get? i).getD .null

/-- Model of `pd.to_numeric(s, errors="coerce")` on a text cell: trim
whitespace, optional sign, decimal digits with at most one point.  Exponent
forms are not modelled; no claim exercises them. -/
def pdToNumericStr (s : String) : Option ℚ :=
  match trimChars s.data with
  | '+' :: rest => RawDataEtl.parseUnsignedFloat rest
  | '-' :: rest => (RawDataEtl.parseUnsignedFloat rest).map Neg.neg
  | cs => RawDataEtl.parseUnsignedFloat cs

/-- `pd.to_numeric(column, errors="coerce")` cell-wise: numbers and nulls pass
through, text parses to a number or coerces to null. -/
def toNumericCell : NCell → NCell
  | .null => .null
  | .num q => .num q
  | .text s =>
    match pdToNumericStr s with
    | some q => .num q
    | none => .null

/-- One step of the final safety pass of `run_processing`: if the column is
present, convert all its cells with `pd.to_numeric(…, errors="coerce")`. -/
def forceCol (t : NTable) (c : String) : NTable :=
  if hasCol t c then t.map (fun p => if p.1 = c then (p.1, p.2.map toNumericCell) else p)
  else t

/-- The final safety pass: force every enumerated financial column that is
present in the output to numeric type. -/
def forceNumericPass (t : NTable) : NTable :=
  numericColumns.foldl forceCol t

/-- The registry in Python `sorted` (lexicographic) order, as used when the
normalizer initializes its output columns. -/
def sortedNormalized : List String :=
  List.insertionSort lexLe normalizedColumns

/-- Append a column name only when not already present
(`if norm_col not in result_df.columns`). -/
def addIfAbsent (acc : List String) (n : String) : List String :=
  if n ∈ acc then acc else acc ++ [n]

/-- The normalizer's output column sequence as a function of the combined
input's columns: each standard column that exists in the input is copied
first, in the literal standard order, then every sorted canonical column not
already present is appended.  (The later mapping loop adds no further
columns: it only touches names in `sortedNormalized`, all initialized here.) -/
def normalizerColumnOrder (inputCols : List String) : List String :=
  sortedNormalized.foldl addIfAbsent (standardColumns.filter (fun c => c ∈ inputCols))

/-- The local `financial_columns` list inside the mapping-application loop. -/
def financialColumnsLocal : List String :=
  ["Total Revenue", "Total Expenses", "Administrative", "Annualized Revenue"]

/-- Write `vals` into a column slice at the client's row positions
(`result_df.loc[client_indices, col] = vals.values`, positions and values
aligned pairwise). -/
def writeAt (cells : List NCell) (idxs : List Nat) (vals : List NCell) : List NCell :=
  (idxs.zip vals).foldl (fun cs iv => cs.set iv.1 iv.2) cells

/-- The transformed column slice the write stores: financial columns (by the
local list or a `Revenue`/`Expense` substring) are always coerced
numerically; a numeric-dtyped source column is copied as-is; a mixed column
is coerced numerically.  Pandas dtype inference is modelled as: a column is
numeric-dtyped iff it holds no text cell. -/
def transformedSlice (src : List NCell) (normCol : String) : List NCell :=
  if normCol ∈ financialColumnsLocal
      || containsSub normCol "Revenue" || containsSub normCol "Expense" then
    src.map toNumericCell
  else if src.all (fun c => !c.isText) then src
  else src.map toNumericCell

/-- One mapping-pair application of
`create_normalized_output_with_verification` (lines 228-278): skip the pair
when the original column is absent from the client's data or the normalized
name is not canonical; skip it entirely (the standard-column guard) when the
normalized name is a standard column already holding a non-null value in any
of this client's rows; otherwise write the transformed source slice into the
client's row positions of the normalized column. -/
def applyMappingPair (clientData res : NTable) (clientIdx : List Nat)
    (origCol normCol : String) : NTable :=
  if hasCol clientData origCol && decide (normCol ∈ sortedNormalized) then
    if hasCol res normCol && decide (normCol ∈ standardColumns)
        && clientIdx.any (fun i => !(cellAt (getColCells res normCol) i).isNull) then
      res
    else
      let res1 := if hasCol res normCol then res else res ++ [(normCol, [])]
      let vals := transformedSlice (getColCells clientData origCol) normCol
      setCol res1 normCol (writeAt (getColCells res1 normCol) clientIdx vals)
  else res

end NormalizedRawData

namespace NormalizedRawData

open Shared

theorem toNumericCell_not_text (c : NCell) : (toNumericCell c).isText = false := by
  cases c with
  | null => rfl
  | num q => rfl
  | text s =>
    cases h : pdToNumericStr s <;> simp [toNumericCell, h, NCell.isText]

/-- All cells of every occurrence of column `n` in `t` are non-text. -/
def colClean (t : NTable) (n : String) : Prop :=
  ∀ p ∈ t, p.1 = n → ∀ x ∈ p.2, x.isText = false

theorem hasCol_false_not_mem {t : NTable} {c : String} (h : hasCol t c = false)
    {p : String × List NCell} (hp : p ∈ t) : p.1 ≠ c := by
  unfold hasCol at h
  rw [List.any_eq_false] at h
  simpa using h p hp

theorem forceCol_colClean_self (t : NTable) (c : String) : colClean (forceCol t c) c := by
  intro p hp hc x hx
  unfold forceCol at hp
  by_cases h : hasCol t c = true
  · rw [if_pos h] at hp
    rcases List.mem_map.mp hp with ⟨q, hq, he⟩
    by_cases hqc : q.1 = c
    · rw [if_pos hqc] at he
      rw [← he] at hx
      rcases List.mem_map.mp hx with ⟨y, _, hy⟩
      rw [← hy]
      exact toNumericCell_not_text y
    · rw [if_neg hqc] at he
      exact absurd (he ▸ hc) hqc
  · rw [if_neg h] at hp
    exact absurd hc (hasCol_false_not_mem (Bool.eq_false_iff.mpr h) hp)

theorem forceCol_colClean_pres (t : NTable) (c n : String) (h : colClean t n) :
    colClean (forceCol t c) n := by
  intro p hp hpn x hx
  unfold forceCol at hp
  by_cases hc : hasCol t c = true
  · rw [if_pos hc] at hp
    rcases List.mem_map.mp hp with ⟨q, hq, he⟩
    by_cases hqc : q.1 = c
    · rw [if_pos hqc] at he
      rw [← he] at hx
      rcases List.mem_map.mp hx with ⟨y, _, hy⟩
      rw [← hy]
      exact toNumericCell_not_text y
    · rw [if_neg hqc] at he
      exact h p (he ▸ hq) hpn x hx
  · rw [if_neg hc] at hp
    exact h p hp hpn x hx

theorem foldl_forceCol_pres (L : List String) (t : NTable) (n : String)
    (h : colClean t n) : colClean (L.foldl forceCol t) n := by
  induction L generalizing t with
  | nil => exact h
  | cons c L ih => exact ih _ (forceCol_colClean_pres t c n h)

theorem foldl_forceCol_clean (L : List String) (t : NTable) (n : String)
    (hn : n ∈ L) : colClean (L.foldl forceCol t) n := by
  induction L generalizing t with
  | nil => cases hn
  | cons c L ih =>
    rcases List.mem_cons.mp hn with h1 | h2
    · subst h1
      exact foldl_forceCol_pres L _ n (forceCol_colClean_self t n)
    · exact ih (forceCol t c) h2

theorem lookup_concat {β : Type} (m : List (String × β)) (o k : String) (v : β) :
    (m ++ [(o, v)]).lookup k
      = match m.lookup k with
        | some w => some w
        | none => if k == o then some v else none := by
  induction m with
  | nil => cases hb : (k == o) <;> simp [List.lookup, hb]
  | cons p t ih =>
    simp only [List.cons_append, List.lookup]
    cases hb : (k == p.1) <;> simp [ih]

/-- `hasMatchRow rows nn orig` holds when some row claims `orig` for `nn`. -/
def hasMatchRow (rows : List MasterRow) (nn orig : String) : Bool :=
  rows.any fun r => decide (r.norm = some nn) && decide (r.orig = some orig)

theorem addRowStep_of_some {r : MasterRow} {o : String} (nn : String)
    (m : List (String × String)) (hor : r.orig = some o) :
    addRowStep nn m r = if (m.lookup o).isNone then m ++ [(o, nn)] else m := by
  unfold addRowStep
  rw [hor]

theorem addRowStep_of_none {r : MasterRow} (nn : String) (m : List (String × String))
    (hor : r.orig = none) : addRowStep nn m r = m := by
  unfold addRowStep
  rw [hor]

theorem foldl_addRowStep_lookup_some (t : List MasterRow) (m : List (String × String))
    (nn orig v : String) (h : m.lookup orig = some v) :
    (t.foldl (addRowStep nn) m).lookup orig = some v := by
  induction t generalizing m with
  | nil => exact h
  | cons r t ih =>
    rw [List.foldl_cons]
    refine ih _ ?_
    cases hor : r.orig with
    | none => rw [addRowStep_of_none nn m hor]; exact h
    | some o =>
      rw [addRowStep_of_some nn m hor]
      by_cases ho : (m.lookup o).isNone = true
      · rw [if_pos ho, lookup_concat, h]
      · rw [if_neg ho]; exact h

theorem addRowsFor_lookup_some (rows : List MasterRow) (m : List (String × String))
    (nn orig v : String) (h : m.lookup orig = some v) :
    (addRowsFor m rows nn).lookup orig = some v :=
  foldl_addRowStep_lookup_some _ m nn orig v h

theorem addRowsFor_lookup_none (rows : List MasterRow) (m : List (String × String))
    (nn orig : String) (h : m.lookup orig = none) :
    (addRowsFor m rows nn).lookup orig
      = (if hasMatchRow rows nn orig then some nn else none) := by
  induction rows generalizing m with
  | nil => simpa [addRowsFor, hasMatchRow] using h
  | cons r t ih =>
    by_cases hr : r.norm = some nn
    · have hfil : (r :: t).filter (fun r => decide (r.norm = some nn))
          = r :: t.filter (fun r => decide (r.norm = some nn)) := by
        simp [List.filter_cons, hr]
      cases hor : r.orig with
      | none =>
        have hmatch : hasMatchRow (r :: t) nn orig = hasMatchRow t nn orig := by
          simp [hasMatchRow, hor]
        have step : addRowsFor m (r :: t) nn = addRowsFor m t nn := by
          unfold addRowsFor
          rw [hfil, List.foldl_cons, addRowStep_of_none nn m hor]
        rw [step, hmatch]
        exact ih m h
      | some o =>
        have step : addRowsFor m (r :: t) nn
            = addRowsFor (if (m.lookup o).isNone then m ++ [(o, nn)] else m) t nn := by
          unfold addRowsFor
          rw [hfil, List.foldl_cons, addRowStep_of_some nn m hor]
        by_cases ho : o = orig
        · subst ho
          have hmatch : hasMatchRow (r :: t) nn o = true := by
            simp only [hasMatchRow, List.any_cons]
            have h1 : decide (r.norm = some nn) = true := decide_eq_true hr
            have h2 : decide (r.orig = some o) = true := decide_eq_true hor
            rw [h1, h2]
            rfl
          have hsome : ((m ++ [(o, nn)]).lookup o) = some nn := by
            rw [lookup_concat, h]
            simp
          rw [step, if_pos (by simp [h]), hmatch, if_pos rfl]
          exact addRowsFor_lookup_some t _ nn o nn hsome
        · have hmatch : hasMatchRow (r :: t) nn orig = hasMatchRow t nn orig := by
            simp only [hasMatchRow, List.any_cons]
            have h2 : decide (r.orig = some orig) = false := by
              rw [hor]
              simp [ho]
            rw [h2, Bool.and_false, Bool.false_or]
          have hlk : (if (m.lookup o).isNone then m ++ [(o, nn)] else m).lookup orig
              = none := by
            by_cases hmo : (m.lookup o).isNone = true
            · rw [if_pos hmo, lookup_concat, h]
              rw [if_neg (by simpa using fun e => ho e.symm)]
            · rw [if_neg hmo]; exact h
          rw [step, hmatch]
          exact ih _ hlk
    · have hfil : (r :: t).filter (fun r => decide (r.norm = some nn))
          = t.filter (fun r => decide (r.norm = some nn)) := by
        simp [List.filter_cons, hr]
      have hmatch : hasMatchRow (r :: t) nn orig = hasMatchRow t nn orig := by
        simp only [hasMatchRow, List.any_cons]
        have h1 : decide (r.norm = some nn) = false := by simp [hr]
        rw [h1, Bool.false_and, Bool.false_or]
      have step : addRowsFor m (r :: t) nn = addRowsFor m t nn := by
        unfold addRowsFor
        rw [hfil]
      rw [step, hmatch]
      exact ih m h

theorem foldl_addRowsFor_lookup_some (rows : List MasterRow) (L : List String)
    (m : List (String × String)) (orig v : String) (h : m.lookup orig = some v) :
    ((L.foldl (fun m nn => addRowsFor m rows nn) m).lookup orig) = some v := by
  induction L generalizing m with
  | nil => exact h
  | cons nn L ih =>
    rw [List.foldl_cons]
    exact ih _ (addRowsFor_lookup_some rows m nn orig v h)

/-- First-claim-wins characterization of the generic fold: the original name
maps to the first canonical name in iteration order having a matching row. -/
theorem foldl_addRowsFor_lookup (rows : List MasterRow) (L : List String)
    (m : List (String × String)) (orig : String) (h : m.lookup orig = none) :
    ((L.foldl (fun m nn => addRowsFor m rows nn) m).lookup orig)
      = L.find? (fun nn => hasMatchRow rows nn orig) := by
  induction L generalizing m with
  | nil => simpa using h
  | cons nn L ih =>
    rw [List.foldl_cons]
    cases hm : hasMatchRow rows nn orig with
    | true =>
      rw [@List.find?_cons_of_pos _ (fun nn => hasMatchRow rows nn orig) nn L hm]
      have h1 : (addRowsFor m rows nn).lookup orig = some nn := by
        rw [addRowsFor_lookup_none rows m nn orig h, if_pos hm]
      exact foldl_addRowsFor_lookup_some rows L _ orig nn h1
    | false =>
      rw [@List.find?_cons_of_neg _ (fun nn => hasMatchRow rows nn orig) nn L (by simp [hm])]
      have h1 : (addRowsFor m rows nn).lookup orig = none := by
        rw [addRowsFor_lookup_none rows m nn orig h, if_neg (by simp [hm])]
      exact ih _ h1

theorem addRowStep_keys_nodup (nn : String) (m : List (String × String)) (r : MasterRow)
    (hnd : (keysOf m).Nodup) : (keysOf (addRowStep nn m r)).Nodup := by
  cases hor : r.orig with
  | none => rw [addRowStep_of_none nn m hor]; exact hnd
  | some o =>
    rw [addRowStep_of_some nn m hor]
    by_cases ho : (m.lookup o).isNone = true
    · rw [if_pos ho]
      have hno : o ∉ keysOf m :=
        not_mem_keys_of_lookup_eq_none (Option.isNone_iff_eq_none.mp ho)
      have : keysOf (m ++ [(o, nn)]) = keysOf m ++ [o] := by
        simp [keysOf]
      rw [this]
      exact hnd.append (List.nodup_singleton o) (by simpa [List.disjoint_singleton] using hno)
    · rw [if_neg ho]; exact hnd

theorem addRowsFor_keys_nodup (rows : List MasterRow) (m : List (String × String))
    (nn : String) (hnd : (keysOf m).Nodup) : (keysOf (addRowsFor m rows nn)).Nodup := by
  unfold addRowsFor
  generalize rows.filter (fun r => decide (r.norm = some nn)) = rs
  induction rs generalizing m with
  | nil => exact hnd
  | cons r t ih =>
    rw [List.foldl_cons]
    exact ih _ (addRowStep_keys_nodup nn m r hnd)

theorem genericMapping_keys_nodup (rows : List MasterRow) :
    (keysOf (genericMapping rows)).Nodup := by
  unfold genericMapping
  generalize normalizedColumns = L
  have : (keysOf ([] : List (String × String))).Nodup := List.nodup_nil
  generalize hm : ([] : List (String × String)) = m at this
  clear hm
  induction L generalizing m with
  | nil => exact this
  | cons nn L ih =>
    rw [List.foldl_cons]
    exact ih _ (addRowsFor_keys_nodup rows m nn this)

theorem foldl_addIfAbsent_eq (L acc : List String) (hnd : L.Nodup) :
    L.foldl addIfAbsent acc = acc ++ L.filter (fun n => n ∉ acc) := by
  induction L generalizing acc with
  | nil => simp
  | cons n L ih =>
    simp only [List.nodup_cons] at hnd
    rw [List.foldl_cons]
    by_cases hmem : n ∈ acc
    · rw [show addIfAbsent acc n = acc from if_pos hmem, ih acc hnd.2,
        List.filter_cons_of_neg (by simpa using hmem)]
    · rw [show addIfAbsent acc n = acc ++ [n] from if_neg hmem, ih _ hnd.2,
        List.filter_cons_of_pos (by simpa using hmem)]
      have hcong : L.filter (fun x => decide (x ∉ acc ++ [n]))
          = L.filter (fun x => decide (x ∉ acc)) := by
        refine List.filter_congr (fun x hx => ?_)
        have hxn : x ≠ n := fun e => hnd.1 (e ▸ hx)
        simp [List.mem_append, hxn]
      rw [hcong, List.append_assoc]
      rfl

end NormalizedRawData

namespace RawDataEtl

open Shared

theorem pyFloat_nil : pyFloat [] = none := rfl

/-- `is_location_specific_field` returns either `(False, None)` or `(True, l)`
with `l` one of the four location keys. -/
theorem isLocationSpecificField_cases (c : String) :
    isLocationSpecificField c = (false, none) ∨
      ∃ l, l ∈ ["Okotoks", "Barlow NE", "Eastpoint SE", "Corp"] ∧
        isLocationSpecificField c = (true, some l) := by
  unfold isLocationSpecificField
  by_cases h0 : (strTrim c) ∈ locationSpecificFields
  · rw [if_pos h0]
    by_cases h1 : containsSub (strTrim c) "Okotoks" = true
    · exact Or.inr ⟨"Okotoks", by simp, by rw [if_pos h1]⟩
    · rw [if_neg h1]
      by_cases h2 : containsSub (strTrim c) "Barlow NE" = true
      · exact Or.inr ⟨"Barlow NE", by simp, by rw [if_pos h2]⟩
      · rw [if_neg h2]
        by_cases h3 : containsSub (strTrim c) "Eastpoint SE" = true
        · exact Or.inr ⟨"Eastpoint SE", by simp, by rw [if_pos h3]⟩
        · rw [if_neg h3]
          by_cases h4 : containsSub (strTrim c) "Corp" = true
          · exact Or.inr ⟨"Corp", by simp, by rw [if_pos h4]⟩
          · rw [if_neg h4]; exact Or.inl rfl
  · rw [if_neg h0]; exact Or.inl rfl

/-- `should_include_field_for_location` holds exactly for the target key. -/
theorem shouldInclude_iff (c k : String) :
    shouldIncludeFieldForLocation c k = true ↔ k = targetKey c := by
  rcases isLocationSpecificField_cases c with h | ⟨l, _, h⟩
  · have e1 : shouldIncludeFieldForLocation c k = (k == "General") := by
      unfold shouldIncludeFieldForLocation; rw [h]
    have e2 : targetKey c = "General" := by
      unfold targetKey; rw [h]
    rw [e1, e2]
    exact beq_iff_eq
  · have e1 : shouldIncludeFieldForLocation c k = (some l == some k) := by
      unfold shouldIncludeFieldForLocation; rw [h]
    have e2 : targetKey c = l := by
      unfold targetKey; rw [h]
    rw [e1, e2]
    constructor
    · intro hb
      exact (Option.some_injective _ (beq_iff_eq.mp hb)).symm
    · intro hk
      exact beq_iff_eq.mpr (by rw [hk])

theorem shouldInclude_eq_decide (c k : String) :
    shouldIncludeFieldForLocation c k = decide (k = targetKey c) := by
  by_cases h : k = targetKey c
  · rw [(shouldInclude_iff c k).mpr h]
    exact (decide_eq_true h).symm
  · rw [decide_eq_false h]
    cases hb : shouldIncludeFieldForLocation c k
    · rfl
    · exact absurd ((shouldInclude_iff c k).mp hb) h

/-- The target key is always one of the five emitted location keys. -/
theorem targetKey_mem (c : String) :
    targetKey c ∈ ["Okotoks", "Barlow NE", "Eastpoint SE", "Corp", "General"] := by
  rcases isLocationSpecificField_cases c with h | ⟨l, hl, h⟩
  · unfold targetKey; rw [h]; simp
  · unfold targetKey; rw [h]
    simp only [List.mem_cons] at hl ⊢
    tauto

/-- Exactly one of the five (key, name) pairs receives any given category. -/
theorem filter_shouldInclude_length (c : String) :
    (dreamsLocations.filter (fun p => shouldIncludeFieldForLocation c p.1)).length = 1 := by
  rw [List.filter_congr (fun p _ => shouldInclude_eq_decide c p.1)]
  have hmem := targetKey_mem c
  simp only [List.mem_cons, List.not_mem_nil, or_false] at hmem
  rcases hmem with h | h | h | h | h <;> rw [h] <;> decide

/-- A fold of category updates never touches a key outside the category list. -/
theorem lookup_foldl_addCategory_not_mem (m : List (List SCell)) (d : DateInfo)
    (locKey : String) (cats : List (String × Nat)) (rec : Rec) (c : String)
    (hc : c ∉ cats.map Prod.fst) :
    (cats.foldl (addCategoryField m d locKey) rec).lookup c = rec.lookup c := by
  induction cats generalizing rec with
  | nil => rfl
  | cons ci t ih =>
    simp only [List.map_cons, List.mem_cons, not_or] at hc
    rw [List.foldl_cons, ih _ hc.2]
    unfold addCategoryField
    by_cases hg : ci.1 ≠ "" ∧ ci.1 ≠ "nan"
    · rw [if_pos hg]
      by_cases hs : shouldIncludeFieldForLocation ci.1 locKey = true
      · rw [if_pos hs, lookup_updIn_other _ _ _ _ hc.1]
      · rw [if_neg hs, lookup_updIn_other _ _ _ _ hc.1]
    · rw [if_neg hg]

/-- Value of a category field after the record fold: the coerced source cell
when the field belongs to this location, otherwise 0. -/
theorem lookup_foldl_addCategory (m : List (List SCell)) (d : DateInfo)
    (locKey : String) (cats : List (String × Nat)) (rec : Rec) (c : String) (r : Nat)
    (hcr : (c, r) ∈ cats) (hnd : (cats.map Prod.fst).Nodup)
    (hne : c ≠ "") (hnn : c ≠ "nan") :
    (cats.foldl (addCategoryField m d locKey) rec).lookup c
      = some (.vrat (if shouldIncludeFieldForLocation c locKey
          then cellValueAt m r d.colIdx else 0)) := by
  induction cats generalizing rec with
  | nil => cases hcr
  | cons ci t ih =>
    simp only [List.map_cons, List.nodup_cons] at hnd
    rcases List.mem_cons.mp hcr with h1 | h2
    · have hci : ci = (c, r) := h1.symm
      subst hci
      have hnt : c ∉ t.map Prod.fst := hnd.1
      rw [List.foldl_cons, lookup_foldl_addCategory_not_mem _ _ _ _ _ _ hnt]
      unfold addCategoryField
      rw [if_pos ⟨hne, hnn⟩]
      by_cases hs : shouldIncludeFieldForLocation c locKey = true
      · rw [if_pos hs, if_pos hs]
        exact lookup_updIn_self _ _ _
      · rw [if_neg hs, if_neg hs]
        exact lookup_updIn_self _ _ _
    · exact List.foldl_cons _ _ ▸ ih _ h2 hnd.2

end RawDataEtl

namespace NormalizedRawData

open Shared

theorem clientFixes_values_nodup (cn : String) (fixes : List (String × String))
    (h : clientFixes.lookup cn = some fixes) : (keysOf fixes).Nodup := by
  have hmem := mem_of_lookup_eq_some h
  simp only [clientFixes, List.mem_cons, List.not_mem_nil, or_false] at hmem
  rcases hmem with h1 | h1 | h1 | h1 <;> obtain ⟨-, rfl⟩ := Prod.mk.inj h1 <;> decide

end NormalizedRawData

open Shared RawDataEtl NormalizedRawData

/-- Claim C10: the Transposer's per-cell value coercion during record
emission is total — modelled as a plain function into `ℚ`, since the source's
`try`/`except` lets no exception escape — and behaves exactly as claimed:
`NaN` and non-numeric types become 0, strings are stripped of every character
except digits, `.` and `-` before parsing, and any string that still fails to
parse (including the empty remainder) becomes 0. -/
theorem c10_clean_value_total_spec :
    ∀ v : SCell, cleanValue v = cleanValueSpec v := by
  intro v
  cases v with
  | empty => rfl
  | num q => rfl
  | dt y m d => rfl
  | str s =>
    simp only [cleanValue, cleanValueSpec]
    by_cases h : (stripNonNumericChars s).isEmpty
    · rw [if_pos h, List.isEmpty_iff.mp h]
      rfl
    · rw [if_neg h]

/-- Claim C4: header discovery on `["Jan-23", "Feb-23", "not a date",
"Mar-23"]` starting at column index 1 yields exactly the three parsed dates
January, February and March 2023 at their actual column indices (1, 2, 4),
skipping the unparsable cell; and for every parsed header of any row, the
derived quarter is `Q((month-1)/3+1)` and the forecast flag is `"FORECAST"`
exactly when the date is strictly after the 2025-06-30 cutoff. -/
theorem c4_header_discovery_scenario :
    ((collectDates [.str "Category", .str "Jan-23", .str "Feb-23",
        .str "not a date", .str "Mar-23"]).map
        fun i => (i.colIdx, i.month, i.year, i.quarter, i.forecastType))
      = [(1, "January", 2023, "Q1", "ACTUAL"), (2, "February", 2023, "Q1", "ACTUAL"),
         (4, "March", 2023, "Q1", "ACTUAL")]
    ∧ (∀ (row : List SCell) (i : DateInfo), i ∈ collectDates row →
        i.quarter = "Q" ++ toString ((i.parsed.m - 1) / 3 + 1)
        ∧ (i.forecastType = "FORECAST" ↔ dateLtB cutoffDate i.parsed = true)) := by
  constructor
  · decide
  · intro row i hi
    unfold collectDates at hi
    rcases List.mem_filterMap.mp hi with ⟨p, _, he⟩
    rcases Option.map_eq_some'.mp he with ⟨d, _, hmk⟩
    subst hmk
    refine ⟨rfl, ?_⟩
    show forecastFlag d = "FORECAST" ↔ dateLtB cutoffDate d = true
    unfold forecastFlag
    by_cases hlt : dateLtB cutoffDate d = true
    · rw [if_pos hlt]
      simp [hlt]
    · rw [if_neg hlt]
      constructor
      · intro hx; exact absurd hx (by decide)
      · intro hx; exact absurd hx hlt

/-- Witness for C4's general conjunct at the first scenario header. -/
theorem c4_header_discovery_scenario_witness :
    (mkDateInfo 1 "Jan-23" ⟨2023, 1, 1⟩ ∈ collectDates [.str "Category", .str "Jan-23",
        .str "Feb-23", .str "not a date", .str "Mar-23"])
    ∧ ((mkDateInfo 1 "Jan-23" ⟨2023, 1, 1⟩).quarter
          = "Q" ++ toString (((mkDateInfo 1 "Jan-23" ⟨2023, 1, 1⟩).parsed.m - 1) / 3 + 1)
        ∧ ((mkDateInfo 1 "Jan-23" ⟨2023, 1, 1⟩).forecastType = "FORECAST"
            ↔ dateLtB cutoffDate (mkDateInfo 1 "Jan-23" ⟨2023, 1, 1⟩).parsed = true)) :=
  ⟨by decide,
   c4_header_discovery_scenario.2 [.str "Category", .str "Jan-23", .str "Feb-23",
     .str "not a date", .str "Mar-23"] (mkDateInfo 1 "Jan-23" ⟨2023, 1, 1⟩) (by decide)⟩

/-- Claim C5: with fewer than 3 valid date headers, header discovery reports
failure and the whole transform emits no output records at all — never a
partial record set. -/
theorem c5_insufficient_dates_no_output (m : List (List SCell))
    (h : (collectDates (m.head?.getD [])).length < 3) :
    findDateHeaders (m.head?.getD []) = none ∧ createDreamsRawData m = none := by
  have hfail : findDateHeaders (m.head?.getD []) = none := by
    unfold findDateHeaders
    rw [if_neg (by omega)]
  refine ⟨hfail, ?_⟩
  unfold createDreamsRawData
  rw [hfail]

/-- Witness for C5 on the two-header scenario `["Jan-23", "Feb-23"]`. -/
theorem c5_insufficient_dates_no_output_witness :
    ((collectDates ([[SCell.str "Category", SCell.str "Jan-23", SCell.str "Feb-23"],
        [SCell.str "Revenue", SCell.str "1", SCell.str "2"]].head?.getD [])).length < 3)
    ∧ createDreamsRawData [[SCell.str "Category", SCell.str "Jan-23", SCell.str "Feb-23"],
        [SCell.str "Revenue", SCell.str "1", SCell.str "2"]] = none :=
  ⟨by decide,
   (c5_insufficient_dates_no_output
     [[SCell.str "Category", SCell.str "Jan-23", SCell.str "Feb-23"],
      [SCell.str "Revenue", SCell.str "1", SCell.str "2"]] (by decide)).2⟩

/-- Claim C1: for every date and category, the Transposer writes the coerced
source-cell value from `(categoryRow, dateColumn)` into exactly one emitted
row per date — the row of the unique target location key (`targetKey`,
established below to be the matching entity for the four per-location revenue
labels and `"General"` otherwise) — and every other entity's row holds 0 for
that category, so no source cell contributes to more than one
(category, outputRow) cell. -/
theorem c1_entity_attribution (m : List (List SCell)) (cats : List (String × Nat))
    (d : DateInfo) (locKey locName : String) (_hloc : (locKey, locName) ∈ dreamsLocations)
    (c : String) (r : Nat) (hcr : (c, r) ∈ cats) (hnd : (cats.map Prod.fst).Nodup)
    (hne : c ≠ "") (hnn : c ≠ "nan") (_hr : r < m.length) :
    (emitRecord m d locKey locName cats).lookup c
        = some (.vrat (if locKey = targetKey c then cellValueAt m r d.colIdx else 0))
    ∧ (dreamsLocations.filter (fun p => shouldIncludeFieldForLocation c p.1)).length = 1
    ∧ (strTrim c ∉ locationSpecificFields → targetKey c = "General")
    ∧ targetKey "Okotoks Revenue" = "Okotoks"
    ∧ targetKey "Barlow NE Revenue" = "Barlow NE"
    ∧ targetKey "Eastpoint SE Revenue" = "Eastpoint SE"
    ∧ targetKey "Corp Revenue" = "Corp" := by
  refine ⟨?_, filter_shouldInclude_length c, ?_, by decide, by decide, by decide, by decide⟩
  · have h := lookup_foldl_addCategory m d locKey cats (standardFieldsRec locName d)
      c r hcr hnd hne hnn
    rw [shouldInclude_eq_decide] at h
    simp only [decide_eq_true_eq] at h
    exact h
  · intro hns
    have hfalse : isLocationSpecificField c = (false, none) := by
      simp only [isLocationSpecificField]
      rw [if_neg hns]
    unfold targetKey
    rw [hfalse]

/-- Witness for C1: a one-category ledger attributing "Okotoks Revenue". -/
theorem c1_entity_attribution_witness :
    (("Okotoks", "Okotoks") ∈ dreamsLocations)
    ∧ (("Okotoks Revenue", 1) ∈ [("Okotoks Revenue", (1 : Nat))])
    ∧ ([("Okotoks Revenue", (1 : Nat))].map Prod.fst).Nodup
    ∧ ("Okotoks Revenue" ≠ "") ∧ ("Okotoks Revenue" ≠ "nan")
    ∧ (1 < [[SCell.str "Category", SCell.str "Jan-23"],
            [SCell.str "Okotoks Revenue", SCell.str "100"]].length)
    ∧ ((emitRecord [[SCell.str "Category", SCell.str "Jan-23"],
            [SCell.str "Okotoks Revenue", SCell.str "100"]]
          (mkDateInfo 1 "Jan-23" ⟨2023, 1, 1⟩) "Okotoks" "Okotoks"
          [("Okotoks Revenue", 1)]).lookup "Okotoks Revenue"
        = some (.vrat (if "Okotoks" = targetKey "Okotoks Revenue"
            then cellValueAt [[SCell.str "Category", SCell.str "Jan-23"],
                [SCell.str "Okotoks Revenue", SCell.str "100"]] 1
                (mkDateInfo 1 "Jan-23" ⟨2023, 1, 1⟩).colIdx
            else 0))) :=
  ⟨by decide, by decide, by decide, by decide, by decide, by decide,
   (c1_entity_attribution [[SCell.str "Category", SCell.str "Jan-23"],
       [SCell.str "Okotoks Revenue", SCell.str "100"]] [("Okotoks Revenue", 1)]
     (mkDateInfo 1 "Jan-23" ⟨2023, 1, 1⟩) "Okotoks" "Okotoks" (by decide)
     "Okotoks Revenue" 1 (by decide) (by decide) (by decide) (by decide) (by decide)).1⟩

/-- Claim C2: after the final forced numeric conversion, every enumerated
financial column present in the output table holds only numeric or null
cells — no cell of such a column is text. -/
theorem c2_financial_columns_numeric_or_null (t : NTable) (p : String × List NCell)
    (hp : p ∈ forceNumericPass t) (hmem : p.1 ∈ numericColumns) :
    ∀ x ∈ p.2, x.isText = false :=
  fun x hx => foldl_forceCol_clean numericColumns t p.1 hmem p hp rfl x hx

set_option maxRecDepth 200000 in
/-- Witness for C2: a table whose "Total Revenue" column holds residual text
that the final pass coerces to null. -/
theorem c2_financial_columns_numeric_or_null_witness :
    (("Total Revenue", [NCell.null, NCell.null])
        ∈ forceNumericPass [("Total Revenue", [NCell.text "header", NCell.null]),
            ("Notes", [NCell.text "keep"])])
    ∧ (("Total Revenue", [NCell.null, NCell.null]).1 ∈ numericColumns)
    ∧ NCell.isText NCell.null = false :=
  ⟨by decide, by decide,
   c2_financial_columns_numeric_or_null
     [("Total Revenue", [NCell.text "header", NCell.null]), ("Notes", [NCell.text "keep"])]
     ("Total Revenue", [NCell.null, NCell.null]) (by decide) (by decide)
     NCell.null (by decide)⟩

/-- Claim C9: the standard-column guard — when a mapping pair targets a
standard column that already holds a non-null value in some row of this
client, the Normalizer skips the pair entirely, leaving the output table
unchanged. -/
theorem c9_standard_column_guard (clientData res : NTable) (clientIdx : List Nat)
    (origCol normCol : String) (h1 : normCol ∈ standardColumns)
    (h2 : hasCol res normCol = true)
    (h3 : ∃ i ∈ clientIdx, (cellAt (getColCells res normCol) i).isNull = false) :
    applyMappingPair clientData res clientIdx origCol normCol = res := by
  unfold applyMappingPair
  by_cases houter : (hasCol clientData origCol && decide (normCol ∈ sortedNormalized)) = true
  · rw [if_pos houter]
    have hguard : (hasCol res normCol && decide (normCol ∈ standardColumns)
        && clientIdx.any fun i => !(cellAt (getColCells res normCol) i).isNull) = true := by
      obtain ⟨i, hi, hfalse⟩ := h3
      simp only [Bool.and_eq_true, List.any_eq_true]
      exact ⟨⟨h2, decide_eq_true h1⟩, i, hi, by simp [hfalse]⟩
    rw [if_pos hguard]
  · rw [if_neg houter]

/-- Witness for C9: a populated "Location" column is not overwritten. -/
theorem c9_standard_column_guard_witness :
    ("Location" ∈ standardColumns)
    ∧ (hasCol [("Location", [NCell.text "Okotoks"])] "Location" = true)
    ∧ (∃ i ∈ [0], (cellAt (getColCells [("Location", [NCell.text "Okotoks"])] "Location")
        i).isNull = false)
    ∧ applyMappingPair [("Total - Revenue", [NCell.null])]
        [("Location", [NCell.text "Okotoks"])] [0] "Total - Revenue" "Location"
      = [("Location", [NCell.text "Okotoks"])] :=
  ⟨by decide, by decide, ⟨0, by decide, by decide⟩,
   c9_standard_column_guard [("Total - Revenue", [NCell.null])]
     [("Location", [NCell.text "Okotoks"])] [0] "Total - Revenue" "Location"
     (by decide) (by decide) ⟨0, by decide, by decide⟩⟩

/-- Counterexample to Claim C3 as stated: the claim quantifies over *every*
clientKey string, but at the empty clientKey (with a reference table present)
`client_name.split()[0]` raises `IndexError`, so resolution fails rather than
returning a mapping (`none` models the escaping exception). -/
theorem c3_counterexample_empty_client :
    createClientSpecificMapping (some [⟨some "Acme", some "A", some "B"⟩]) "" = none := by
  decide

/-- Claim C3 (amended): resolution never raises for any clientKey whose first
whitespace-delimited token exists and is free of regex metacharacters (the
filter feeds the token to regex-based `str.contains`): with no reference
table at all the result is the empty mapping, and otherwise the result is the
reference-table stage plus manual overrides, for every table and such key. -/
theorem c3_resolve_total_amended (masterDf : Option (List MasterRow)) (clientName : String) :
    (masterDf = none → createClientSpecificMapping masterDf clientName = some [])
    ∧ (∀ (rows : List MasterRow) (tok : String), masterDf = some rows →
        firstToken clientName = some tok → isLiteralPattern tok = true →
        createClientSpecificMapping masterDf clientName
          = some (applyFixes clientName (preOverrideMapping rows tok))) := by
  constructor
  · intro h
    subst h
    rfl
  · intro rows tok hm htok hlit
    subst hm
    unfold createClientSpecificMapping
    rw [htok]
    dsimp only
    rw [if_pos hlit]

/-- Witness for C3 (amended) at an unknown client with a present table. -/
theorem c3_resolve_total_amended_witness :
    (firstToken "Totally Unknown" = some "Totally")
    ∧ (isLiteralPattern "Totally" = true)
    ∧ (createClientSpecificMapping none "X" = some [])
    ∧ (createClientSpecificMapping (some [⟨some "Acme", some "Revenue", some "Total Revenue"⟩])
          "Totally Unknown"
        = some (applyFixes "Totally Unknown"
            (preOverrideMapping [⟨some "Acme", some "Revenue", some "Total Revenue"⟩]
              "Totally"))) :=
  ⟨by decide, by decide, (c3_resolve_total_amended none "X").1 rfl,
   (c3_resolve_total_amended (some [⟨some "Acme", some "Revenue", some "Total Revenue"⟩])
       "Totally Unknown").2
     [⟨some "Acme", some "Revenue", some "Total Revenue"⟩] "Totally" rfl
     (by decide) (by decide)⟩

/-- Claim C6: whenever resolution succeeds, every manual-override rule for
this exact clientKey ends up in the final mapping — unconditionally
overwriting anything the reference-table stage produced for the same original
name, for every reference table — while a clientKey that is not an exact key
of the override table receives the reference-table stage unchanged; the
hardcoded table holds exactly the four known clients with one rule each. -/
theorem c6_manual_overrides (rows : List MasterRow) (clientName : String)
    (mp : List (String × String))
    (hres : createClientSpecificMapping (some rows) clientName = some mp) :
    (∀ fixes, clientFixes.lookup clientName = some fixes →
        ∀ p ∈ fixes, mp.lookup p.1 = some p.2)
    ∧ (clientFixes.lookup clientName = none →
        ∃ tok, firstToken clientName = some tok ∧ mp = preOverrideMapping rows tok)
    ∧ clientFixes.map Prod.fst
        = ["Great White Car Wash", "Nolan Hill Car Wash", "Dreams Car Wash",
           "Mint Med Hat Car Wash"]
    ∧ (∀ q ∈ clientFixes, q.2.length = 1) := by
  unfold createClientSpecificMapping at hres
  cases htok : firstToken clientName with
  | none => rw [htok] at hres; dsimp only at hres; cases hres
  | some tok =>
    rw [htok] at hres
    dsimp only at hres
    by_cases hlit : isLiteralPattern tok = true
    · rw [if_pos hlit] at hres
      have hmp : mp = applyFixes clientName (preOverrideMapping rows tok) :=
        (Option.some_inj.mp hres).symm
      refine ⟨?_, ?_, by decide, by decide⟩
      · intro fixes hf p hp
        rw [hmp]
        unfold applyFixes
        rw [hf]
        exact foldl_updIn_lookup_mem fixes _ p hp
          (clientFixes_values_nodup clientName fixes hf)
      · intro hnone
        refine ⟨tok, rfl, ?_⟩
        rw [hmp]
        unfold applyFixes
        rw [hnone]
    · rw [if_neg hlit] at hres
      cases hres

/-- Witness for C6: "Great White Car Wash" resolved against a table mapping
"Total - Revenue" to a wrong target; the override wins. -/
theorem c6_manual_overrides_witness :
    (createClientSpecificMapping
        (some [⟨some "Great White Car Wash", some "Total - Revenue", some "Wrong Target"⟩])
        "Great White Car Wash"
      = some [("Total - Revenue", "Total Revenue")])
    ∧ (clientFixes.lookup "Great White Car Wash"
        = some [("Total - Revenue", "Total Revenue")])
    ∧ (("Total - Revenue", "Total Revenue") ∈ [("Total - Revenue", "Total Revenue")])
    ∧ ([("Total - Revenue", "Total Revenue")].lookup "Total - Revenue"
        = some "Total Revenue") :=
  ⟨by decide, by decide, by decide,
   (c6_manual_overrides
       [⟨some "Great White Car Wash", some "Total - Revenue", some "Wrong Target"⟩]
       "Great White Car Wash" [("Total - Revenue", "Total Revenue")] (by decide)).1
     [("Total - Revenue", "Total Revenue")] (by decide)
     ("Total - Revenue", "Total Revenue") (by decide)⟩

/-- Claim C7: when the client filter comes back empty, the resolver's
reference-table stage is the generic mapping; its lookup for any original
name is exactly the first canonical name in registry declaration order that
has a matching reference row (first-claim-wins — so an original name
appearing under two canonical names goes to the earlier one), and no original
name maps to two canonical targets. -/
theorem c7_generic_first_claim_wins (rows : List MasterRow) (tok : String)
    (hempty : filterClientRows rows tok = []) :
    preOverrideMapping rows tok = genericMapping rows
    ∧ (∀ orig, (genericMapping rows).lookup orig
        = normalizedColumns.find? (fun nn => hasMatchRow rows nn orig))
    ∧ (∀ orig n₁ n₂, (orig, n₁) ∈ genericMapping rows →
        (orig, n₂) ∈ genericMapping rows → n₁ = n₂) := by
  refine ⟨?_, ?_, ?_⟩
  · unfold preOverrideMapping
    rw [hempty]
    rfl
  · intro orig
    exact foldl_addRowsFor_lookup rows normalizedColumns [] orig rfl
  · intro orig n₁ n₂ hm1 hm2
    have k := genericMapping_keys_nodup rows
    have e1 := mem_lookup_of_nodup k hm1
    have e2 := mem_lookup_of_nodup k hm2
    rw [e1] at e2
    exact Option.some_inj.mp e2

/-- Witness for C7: "Spend" appears under both "Administrative" and
"Bank Charges"; the registry-earlier "Administrative" wins. -/
theorem c7_generic_first_claim_wins_witness :
    (filterClientRows [⟨some "Acme", some "Spend", some "Bank Charges"⟩,
        ⟨some "Bcme", some "Spend", some "Administrative"⟩] "zzz" = [])
    ∧ ((genericMapping [⟨some "Acme", some "Spend", some "Bank Charges"⟩,
          ⟨some "Bcme", some "Spend", some "Administrative"⟩]).lookup "Spend"
        = normalizedColumns.find?
            (fun nn => hasMatchRow [⟨some "Acme", some "Spend", some "Bank Charges"⟩,
              ⟨some "Bcme", some "Spend", some "Administrative"⟩] nn "Spend")) :=
  ⟨by decide,
   (c7_generic_first_claim_wins [⟨some "Acme", some "Spend", some "Bank Charges"⟩,
       ⟨some "Bcme", some "Spend", some "Administrative"⟩] "zzz" (by decide)).2.1 "Spend"⟩

set_option maxRecDepth 400000 in
/-- Counterexample to Claim C8 as stated: the Normalizer copies a standard
column into the prefix only when it exists in the input
(`if col in combined_df.columns`), so for an input lacking the "Location"
column the first nine output columns are not the full declared standard
prefix — "Location" instead lands among the lexicographic remainder. -/
theorem c8_counterexample_missing_standard :
    (normalizerColumnOrder
        ["Record ID", "File Name", "Client Name", "Month", "Year", "Quarter",
         "Date", "Forecast Type"]).take 9 ≠ standardColumns := by
  decide

/-- Claim C8 (amended): the Normalizer's output column sequence is those
standard columns present in the input, in the literal declared order,
followed by every remaining canonical column in lexicographic order, with no
column repeated (standard columns absent from the input appear inside the
lexicographic remainder); the Transposer's output column sequence is its full
six-column standard prefix followed by the remaining discovered columns in
lexicographic order, none of them a standard column and none repeated. -/
theorem c8_amended_column_order :
    (∀ inputCols : List String,
        normalizerColumnOrder inputCols
          = standardColumns.filter (fun c => c ∈ inputCols)
            ++ sortedNormalized.filter
                (fun n => n ∉ standardColumns.filter (fun c => c ∈ inputCols))
        ∧ List.Pairwise lexLe
            (sortedNormalized.filter
              (fun n => n ∉ standardColumns.filter (fun c => c ∈ inputCols)))
        ∧ (normalizerColumnOrder inputCols).Nodup)
    ∧ (∀ cols : List String, cols.Nodup →
        transposerColumnOrder cols
          = transposerStd
              ++ List.insertionSort lexLe (cols.filter (fun c => c ∉ transposerStd))
        ∧ List.Pairwise lexLe
            (List.insertionSort lexLe (cols.filter (fun c => c ∉ transposerStd)))
        ∧ (∀ c ∈ List.insertionSort lexLe (cols.filter (fun c => c ∉ transposerStd)),
            c ∉ transposerStd)
        ∧ (transposerColumnOrder cols).Nodup) := by
  have hndN : normalizedColumns.Nodup := by decide
  have hndSorted : sortedNormalized.Nodup :=
    (List.perm_insertionSort lexLe normalizedColumns).nodup_iff.mpr hndN
  have hsortN : List.Pairwise lexLe sortedNormalized :=
    List.sorted_insertionSort lexLe normalizedColumns
  constructor
  · intro inputCols
    have heq : normalizerColumnOrder inputCols
        = standardColumns.filter (fun c => c ∈ inputCols)
          ++ sortedNormalized.filter
              (fun n => n ∉ standardColumns.filter (fun c => c ∈ inputCols)) :=
      foldl_addIfAbsent_eq sortedNormalized _ hndSorted
    refine ⟨heq, hsortN.filter _, ?_⟩
    rw [heq]
    have hstd : (standardColumns.filter (fun c => c ∈ inputCols)).Nodup :=
      List.Nodup.filter _ (by decide)
    refine hstd.append (hndSorted.filter _) ?_
    intro a ha hb
    have := (List.mem_filter.mp hb).2
    simp only [decide_eq_true_eq] at this
    exact this ha
  · intro cols hcols
    have hsortT : List.Pairwise lexLe
        (List.insertionSort lexLe (cols.filter (fun c => c ∉ transposerStd))) :=
      List.sorted_insertionSort lexLe _
    have hout : ∀ c ∈ List.insertionSort lexLe (cols.filter (fun c => c ∉ transposerStd)),
        c ∉ transposerStd := by
      intro c hc
      have := (List.mem_filter.mp ((List.mem_insertionSort lexLe).mp hc)).2
      simpa using this
    refine ⟨rfl, hsortT, hout, ?_⟩
    show (transposerStd
        ++ List.insertionSort lexLe (cols.filter (fun c => c ∉ transposerStd))).Nodup
    refine List.Nodup.append (by decide) ?_ ?_
    · exact (List.perm_insertionSort lexLe _).nodup_iff.mpr (List.Nodup.filter _ hcols)
    · intro a ha hb
      exact hout a hb ha

/-- Witness for C8 (amended) at a two-category transposer record set. -/
theorem c8_amended_column_order_witness :
    (["Okotoks Revenue", "EBITDA"] : List String).Nodup
    ∧ transposerColumnOrder ["Okotoks Revenue", "EBITDA"]
        = transposerStd
            ++ List.insertionSort lexLe
                ((["Okotoks Revenue", "EBITDA"] : List String).filter
                  (fun c => c ∉ transposerStd)) :=
  ⟨by decide, (c8_amended_column_order.2 ["Okotoks Revenue", "EBITDA"] (by decide)).1⟩
